import Mathlib

/-!
Verification of the frame-complexity selector and the retry wrapper of the
TruthScan analyzer scripts.

The selector `extract_most_complex_frame` (src/backend/scripts/
truthscan_analyzer_video.py) is embedded as a pure function over a list of
decoded frames.  The OpenCV primitives it calls (`cvtColor`, `Laplacian`,
`Canny`) belong to an external library; they are modelled as parameters
bundled in a `CV` structure, so every theorem below holds for an arbitrary
behaviour of the library.  The numpy reductions the script performs itself
(`.var()`, `(edges > 0).sum() / edges.size`) are embedded exactly, over ℚ.

The retry wrapper `_retry_request` (src/backend/scripts/truthscan_analyzer.py)
is embedded with the per-attempt behaviour of the wrapped callable given as a
function from the attempt number to an outcome (a returned result dict or a
raised exception).
-/

namespace TruthScan

/-- A pixel as decoded by OpenCV: `(B, G, R)` channel values. -/
abbrev Pixel := Nat × Nat × Nat

/-- A decoded video frame: rows of BGR pixels. -/
abbrev Frame := List (List Pixel)

/-- A single-channel 8-bit image (grayscale image or Canny edge map). -/
abbrev GrayImage := List (List Nat)

/-- A `CV_64F` matrix, modelled with exact rationals. -/
abbrev MatQ := List (List ℚ)

/-- numpy's `.var()`: population variance, the mean of squared deviations
from the mean, over the flattened array. -/
def npVar (xs : List ℚ) : ℚ :=
  ((xs.map fun x => (x - xs.sum / xs.length) ^ 2).sum) / xs.length

/-- `(edges > 0).sum() / edges.size`: the fraction of strictly positive
entries of an edge map. -/
def edgeDensityOf (edges : GrayImage) : ℚ :=
  ((edges.flatten.filter fun x => decide (0 < x)).length : ℚ) / (edges.flatten.length : ℚ)

/-- The OpenCV primitives called by `extract_most_complex_frame`.  They are
external library code, so the development is parametric in them: every
theorem holds for an arbitrary `CV`. -/
structure CV where
  /-- `cv2.cvtColor(frame, cv2.COLOR_BGR2GRAY)` -/
  cvtGray : Frame → GrayImage
  /-- `cv2.Laplacian(gray, cv2.CV_64F)` -/
  laplacian : GrayImage → MatQ
  /-- `cv2.Canny(gray, low, high)` -/
  canny : GrayImage → Nat → Nat → GrayImage
  /-- `cv2.cvtColor(frame, cv2.COLOR_BGR2HSV)`, pixels as `(H, S, V)` -/
  cvtHSV : Frame → List (List Pixel)

/-- The per-frame score computed inside the loop of
`extract_most_complex_frame`, lines 63-79 of the source. -/
def complexityScore (cv : CV) (frame : Frame) : ℚ :=
  let gray := cv.cvtGray frame
  let laplacian_var := npVar (cv.laplacian gray).flatten
  let pixel_var := npVar ((gray.map (List.map fun x : Nat => (x : ℚ))).flatten)
  let edges := cv.canny gray 50 150
  let edge_density := edgeDensityOf edges
  let hsv := cv.cvtHSV frame
  let color_var := npVar (hsv.flatten.map fun p => (p.2.1 : ℚ))
  laplacian_var * 0.35 + pixel_var * 0.25 + edge_density * 5000 + color_var * 0.15

/-- Sharpness: variance of the Laplacian of the grayscale image. -/
def sharpnessVariance (cv : CV) (f : Frame) : ℚ :=
  npVar (cv.laplacian (cv.cvtGray f)).flatten

/-- Variance of the raw grayscale pixel values. -/
def pixelIntensityVariance (cv : CV) (f : Frame) : ℚ :=
  npVar (((cv.cvtGray f).map (List.map fun x : Nat => (x : ℚ))).flatten)

/-- Fraction of edge pixels of the Canny edge map at thresholds 50/150. -/
def cannyEdgeDensity (cv : CV) (f : Frame) : ℚ :=
  edgeDensityOf (cv.canny (cv.cvtGray f) 50 150)

/-- Variance of the HSV saturation channel (`hsv[:,:,1]`). -/
def saturationVariance (cv : CV) (f : Frame) : ℚ :=
  npVar ((cv.cvtHSV f).flatten.map fun p => (p.2.1 : ℚ))

/-- The loop state of `extract_most_complex_frame`:
`max_complexity_score`, `best_frame`, `best_frame_idx`. -/
structure SelState where
  maxScore : ℚ
  best : Option Frame
  bestIdx : Nat
deriving DecidableEq

/-- One iteration of the scan loop (lines 62-84 of the source): score the
frame when its index is a multiple of `sample_rate`, and replace the
running best on a strictly greater score. -/
def scanStep (score : Frame → ℚ) (sample_rate idx : Nat) (frame : Frame)
    (st : SelState) : SelState :=
  if idx % sample_rate = 0 then
    let s := score frame
    if s > st.maxScore then ⟨s, some frame, idx⟩ else st
  else st

/-- The scan loop over the decoded frames, starting at index `idx`. -/
def scanFrames (score : Frame → ℚ) (sample_rate : Nat) :
    List Frame → Nat → SelState → SelState
  | [], _, st => st
  | f :: fs, idx, st =>
      scanFrames score sample_rate fs (idx + 1) (scanStep score sample_rate idx f st)

/-- The sampled subset of a stream: the (absolute index, frame) pairs whose
index is an exact multiple of `sample_rate`, counting from `idx`. -/
def sampledFrom (sample_rate : Nat) : Nat → List Frame → List (Nat × Frame)
  | _, [] => []
  | idx, f :: fs =>
      if idx % sample_rate = 0 then (idx, f) :: sampledFrom sample_rate (idx + 1) fs
      else sampledFrom sample_rate (idx + 1) fs

/-- The best-so-far update, as a fold step over the sampled pairs. -/
def stepPair (score : Frame → ℚ) (st : SelState) (p : Nat × Frame) : SelState :=
  if score p.2 > st.maxScore then ⟨score p.2, some p.2, p.1⟩ else st

/-- The fold of the best-so-far update from the initial state
`max_complexity_score = 0`, `best_frame = None`, `best_frame_idx = 0`. -/
def runFold (score : Frame → ℚ) (ps : List (Nat × Frame)) : SelState :=
  ps.foldl (stepPair score) ⟨0, none, 0⟩

/-- The three failure exits of `extract_most_complex_frame`:
`FileNotFoundError` (line 40), `ValueError` for an unopenable file
(line 45), and `ValueError` for no extracted frame (line 91). -/
inductive ExtractErr
  | fileNotFound
  | couldNotOpen
  | noFrame
deriving DecidableEq

/-- The first two exits report that the source could not be opened at all;
the spec groups them as `OpenError`. -/
def ExtractErr.isOpenError : ExtractErr → Bool
  | .fileNotFound => true
  | .couldNotOpen => true
  | .noFrame => false

/-- A video source as the script observes it: whether the path exists
(`os.path.exists`), whether `cv2.VideoCapture` opens it (`cap.isOpened`),
and the frames successive `cap.read()` calls decode. -/
structure VideoSource where
  pathExists : Bool
  opens : Bool
  frames : List Frame
deriving DecidableEq

/-- The observable outcome of one call: the value returned or the error
raised, the frame written to `output_path` by `cv2.imwrite` (if any), and
whether `cap.release()` ran. -/
structure RunTrace where
  result : Except ExtractErr (Frame × Nat)
  written : Option Frame
  released : Bool

/-- `extract_most_complex_frame(video_path, output_path, sample_rate)`,
lines 27-95 of the source, as a trace over a `VideoSource`.  On success the
source returns `output_path`; the model returns the retained best frame and
its index, which is what the written file contains. -/
def extract_most_complex_frame (cv : CV) (src : VideoSource) (sample_rate : Nat) :
    RunTrace :=
  if !src.pathExists then ⟨.error .fileNotFound, none, false⟩
  else if !src.opens then ⟨.error .couldNotOpen, none, false⟩
  else
    let st := scanFrames (complexityScore cv) sample_rate src.frames 0 ⟨0, none, 0⟩
    match st.best with
    | none => ⟨.error .noFrame, none, true⟩
    | some f => ⟨.ok (f, st.bestIdx), some f, true⟩

/-- Python `%`: raises `ZeroDivisionError` on a zero modulus. -/
def pymod (a b : Nat) : Except String Nat :=
  if b = 0 then .error "integer division or modulo by zero" else .ok (a % b)

/-- One loop iteration with Python's partial `%` made explicit. -/
def scanStepE (score : Frame → ℚ) (sample_rate idx : Nat) (frame : Frame)
    (st : SelState) : Except String SelState := do
  let r ← pymod idx sample_rate
  if r = 0 then
    let s := score frame
    if s > st.maxScore then pure ⟨s, some frame, idx⟩ else pure st
  else pure st

/-- The scan loop with Python's partial `%` made explicit. -/
def scanFramesE (score : Frame → ℚ) (sample_rate : Nat) :
    List Frame → Nat → SelState → Except String SelState
  | [], _, st => pure st
  | f :: fs, idx, st => do
      let st' ← scanStepE score sample_rate idx f st
      scanFramesE score sample_rate fs (idx + 1) st'

/-- `extract_most_complex_frame` with Python's partial `%` made explicit:
an arithmetic error inside the loop would propagate. -/
def extract_most_complex_frameE (cv : CV) (src : VideoSource) (sample_rate : Nat) :
    Except String RunTrace :=
  if !src.pathExists then .ok ⟨.error .fileNotFound, none, false⟩
  else if !src.opens then .ok ⟨.error .couldNotOpen, none, false⟩
  else do
    let st ← scanFramesE (complexityScore cv) sample_rate src.frames 0 ⟨0, none, 0⟩
    match st.best with
    | none => pure ⟨.error .noFrame, none, true⟩
    | some f => pure ⟨.ok (f, st.bestIdx), some f, true⟩

/-- A result dict of the wrapped request callable: its `success` flag, its
`error` entry, and a tag standing for the remaining payload entries. -/
structure ApiResult where
  success : Bool
  error : Option String
  payload : Nat
deriving DecidableEq

/-- The outcome of one invocation of the wrapped callable: a returned
result dict, or a raised exception with its text. -/
inductive Attempt
  | ok (r : ApiResult)
  | exn (msg : String)
deriving DecidableEq

/-- Whether an invocation returned a result whose `success` flag is true. -/
def Attempt.succeeded : Attempt → Bool
  | .ok r => r.success
  | .exn _ => false

/-- The `for attempt in range(max_retries)` loop of `_retry_request`,
lines 41-58 of truthscan_analyzer.py, by fuel (`remaining` iterations
left); falling off the loop returns the max-retries dict of line 60. -/
def retryAux (func : Nat → Attempt) (max_retries : Nat) :
    Nat → Nat → ApiResult
  | _, 0 => ⟨false, some "Max retries exceeded", 0⟩
  | attempt, remaining + 1 =>
      match func attempt with
      | .ok result =>
          if result.success = true ∨ attempt = max_retries - 1 then result
          else retryAux func max_retries (attempt + 1) remaining
      | .exn e =>
          if attempt = max_retries - 1 then ⟨false, some e, 0⟩
          else retryAux func max_retries (attempt + 1) remaining

/-- `_retry_request(self, func, ...)` with `self.max_retries = 3`.  The
wrapped callable's behaviour on each attempt is `func`. -/
def _retry_request (func : Nat → Attempt) : ApiResult :=
  retryAux func 3 0 3

/-! ## Concrete instances used to instantiate the parametric theorems -/

/-- OpenCV's 8-bit BGR→grayscale conversion:
`Y = (4899·R + 9617·G + 1868·B + 8192) >> 14`. -/
def grayOfBGR (p : Pixel) : Nat :=
  (1868 * p.1 + 9617 * p.2.1 + 4899 * p.2.2 + 8192) / 16384

/-- OpenCV's 8-bit saturation channel: `V = max(B,G,R)`,
`S = 0` when `V = 0`, else `round(255·(V - min)/V)`. -/
def satOfBGR (p : Pixel) : Nat :=
  let mx := max p.1 (max p.2.1 p.2.2)
  let mn := min p.1 (min p.2.1 p.2.2)
  if mx = 0 then 0 else (255 * (mx - mn) + mx / 2) / mx

/-- BGR→HSV pixel, `(H, S, V)`; only the `S` channel is read by the score. -/
def hsvOfBGR (p : Pixel) : Pixel :=
  (0, satOfBGR p, max p.1 (max p.2.1 p.2.2))

/-- A concrete instance of the OpenCV primitives, used to instantiate the
parametric theorems and counterexamples at concrete inputs.  Grayscale and
saturation follow OpenCV's 8-bit formulas.  `laplacian` and `canny` return
all-zero maps, which is OpenCV's exact behaviour on the 1×1 images they
are applied to below: with border replication the 3×3 Laplacian kernel
(whose entries sum to 0) yields 0 on a 1×1 image, and Canny reports no
edge pixels in an image with no intensity change. -/
def cvW : CV where
  cvtGray f := f.map (List.map grayOfBGR)
  laplacian g := g.map (List.map fun _ => (0 : ℚ))
  canny g _ _ := g.map (List.map fun _ => 0)
  cvtHSV f := f.map (List.map hsvOfBGR)

/-- A 1×1 uniform mid-gray frame: every complexity statistic is zero. -/
def grayFrame : Frame := [[(128, 128, 128)]]

/-- A second 1×1 uniform gray frame (darker); also scores zero. -/
def grayFrame2 : Frame := [[(10, 10, 10)]]

/-- A 1×2 frame with one black and one white pixel: its grayscale pixel
variance is positive, so its complexity score is strictly positive. -/
def contrastFrame : Frame := [[(0, 0, 0), (255, 255, 255)]]

/-- A wrapped callable that raises on every attempt. -/
def funcExn : Nat → Attempt := fun _ => .exn "boom"

/-! ## Basic lemmas about the scan loop -/

/-- The scan loop is the fold of the best-so-far update over the sampled
(index, frame) pairs: unsampled frames are skipped. -/
lemma scan_eq_foldl (score : Frame → ℚ) (rate : Nat) :
    ∀ (fs : List Frame) (idx : Nat) (st : SelState),
      scanFrames score rate fs idx st =
        (sampledFrom rate idx fs).foldl (stepPair score) st := by
  intro fs
  induction fs with
  | nil => intro idx st; rfl
  | cons f fs ih =>
      intro idx st
      by_cases h : idx % rate = 0
      · simp [scanFrames, sampledFrom, scanStep, stepPair, h, ih]
      · simp [scanFrames, sampledFrom, scanStep, h, ih]

lemma le_of_mem_sampledFrom (rate : Nat) :
    ∀ (fs : List Frame) (idx : Nat) (p : Nat × Frame),
      p ∈ sampledFrom rate idx fs → idx ≤ p.1 := by
  intro fs
  induction fs with
  | nil => simp [sampledFrom]
  | cons f fs ih =>
      intro idx p hp
      by_cases h : idx % rate = 0
      · rw [sampledFrom, if_pos h] at hp
        rcases List.mem_cons.mp hp with h1 | h2
        · subst h1; exact le_refl _
        · exact le_trans (Nat.le_succ idx) (ih (idx + 1) p h2)
      · rw [sampledFrom, if_neg h] at hp
        exact le_trans (Nat.le_succ idx) (ih (idx + 1) p hp)

/-- Sampled pairs carry strictly increasing indices. -/
lemma sampledFrom_pairwise (rate : Nat) :
    ∀ (fs : List Frame) (idx : Nat),
      (sampledFrom rate idx fs).Pairwise (fun a b => a.1 < b.1) := by
  intro fs
  induction fs with
  | nil => intro idx; simp [sampledFrom]
  | cons f fs ih =>
      intro idx
      by_cases h : idx % rate = 0
      · rw [sampledFrom, if_pos h]
        refine List.Pairwise.cons ?_ (ih (idx + 1))
        intro p hp
        have := le_of_mem_sampledFrom rate fs (idx + 1) p hp
        omega
      · rw [sampledFrom, if_neg h]
        exact ih (idx + 1)

/-- Membership in the sampled subset: exactly the frames of the stream
whose absolute index is a multiple of the stride. -/
lemma mem_sampledFrom (rate : Nat) :
    ∀ (fs : List Frame) (idx : Nat) (p : Nat × Frame),
      p ∈ sampledFrom rate idx fs ↔
        p.1 % rate = 0 ∧ idx ≤ p.1 ∧ fs[p.1 - idx]? = some p.2 := by
  intro fs
  induction fs with
  | nil => intro idx p; simp [sampledFrom]
  | cons f fs ih =>
      intro idx p
      constructor
      · intro hp
        have htail : p ∈ sampledFrom rate (idx + 1) fs →
            p.1 % rate = 0 ∧ idx ≤ p.1 ∧ (f :: fs)[p.1 - idx]? = some p.2 := by
          intro h2
          have h3 := (ih (idx + 1) p).mp h2
          refine ⟨h3.1, by omega, ?_⟩
          have h5 : p.1 - idx = (p.1 - (idx + 1)) + 1 := by omega
          rw [h5]
          simpa using h3.2.2
        by_cases h : idx % rate = 0
        · rw [sampledFrom, if_pos h] at hp
          rcases List.mem_cons.mp hp with h1 | h2
          · subst h1
            exact ⟨h, le_refl _, by simp⟩
          · exact htail h2
        · rw [sampledFrom, if_neg h] at hp
          exact htail hp
      · rintro ⟨h1, h2, h3⟩
        rcases Nat.eq_or_lt_of_le h2 with heq | hlt
        · have h0 : p.1 - idx = 0 := by omega
          rw [h0] at h3
          simp only [List.getElem?_cons_zero, Option.some.injEq] at h3
          have hpe : p = (idx, f) := by
            rcases p with ⟨i, g⟩
            simp only at heq h3
            simp [← heq, ← h3]
          subst hpe
          rw [sampledFrom, if_pos h1]
          exact List.mem_cons_self _ _
        · have h4 : (p.1 - (idx + 1)) + 1 = p.1 - idx := by omega
          have h5 : fs[p.1 - (idx + 1)]? = some p.2 := by
            rw [← h3, ← h4]
            simp
          have hmem := (ih (idx + 1) p).mpr ⟨h1, by omega, h5⟩
          by_cases h : idx % rate = 0 <;>
            simp [sampledFrom, h, hmem]

/-- No index in the covered range is a multiple: nothing is sampled. -/
lemma sampledFrom_eq_nil (rate : Nat) :
    ∀ (fs : List Frame) (idx : Nat),
      (∀ i, idx ≤ i → i < idx + fs.length → i % rate ≠ 0) →
      sampledFrom rate idx fs = [] := by
  intro fs
  induction fs with
  | nil => intro idx _; rfl
  | cons f fs ih =>
      intro idx hnone
      have h0 : idx % rate ≠ 0 := hnone idx (le_refl _) (by simp)
      rw [sampledFrom, if_neg h0]
      refine ih (idx + 1) ?_
      intro i hi1 hi2
      refine hnone i (by omega) (by simp at hi2 ⊢; omega)

/-- With stride 1 every frame is sampled. -/
lemma sampledFrom_one :
    ∀ (fs : List Frame) (idx : Nat), sampledFrom 1 idx fs = fs.enumFrom idx := by
  intro fs
  induction fs with
  | nil => intro idx; rfl
  | cons f fs ih =>
      intro idx
      rw [sampledFrom, if_pos (Nat.mod_one idx)]
      simp [List.enumFrom, ih]

lemma runFold_append (score : Frame → ℚ) (ps : List (Nat × Frame)) (a : Nat × Frame) :
    runFold score (ps ++ [a]) = stepPair score (runFold score ps) a := by
  simp [runFold, List.foldl_append]

/-- The loop invariant of the scan, over the whole sampled list:
the running maximum starts at `0` and dominates every sampled score; the
best frame is absent exactly as long as no sampled score exceeded `0`; a
retained best frame is a sampled frame realizing the maximum, with a
strictly positive score, and every sampled frame strictly before it scored
strictly less. -/
lemma runFold_inv (score : Frame → ℚ) (ps : List (Nat × Frame)) :
    0 ≤ (runFold score ps).maxScore
    ∧ (∀ p ∈ ps, score p.2 ≤ (runFold score ps).maxScore)
    ∧ ((runFold score ps).best = none → runFold score ps = ⟨0, none, 0⟩)
    ∧ (∀ g, (runFold score ps).best = some g →
        ((runFold score ps).bestIdx, g) ∈ ps
        ∧ (runFold score ps).maxScore = score g ∧ 0 < score g)
    ∧ (ps.Pairwise (fun a b => a.1 < b.1) →
        ∀ g, (runFold score ps).best = some g →
        ∀ p ∈ ps, p.1 < (runFold score ps).bestIdx → score p.2 < score g) := by
  induction ps using List.reverseRecOn with
  | nil =>
      refine ⟨le_refl 0, ?_, ?_, ?_, ?_⟩ <;> simp [runFold]
  | append_singleton ps a ih =>
      obtain ⟨ih0, ih1, ih2, ih3, ih4⟩ := ih
      rw [runFold_append]
      by_cases hgt : score a.2 > (runFold score ps).maxScore
      · simp only [stepPair, if_pos hgt]
        refine ⟨le_of_lt (lt_of_le_of_lt ih0 hgt), ?_, ?_, ?_, ?_⟩
        · intro p hp
          rcases List.mem_append.mp hp with h | h
          · exact le_of_lt (lt_of_le_of_lt (ih1 p h) hgt)
          · simp only [List.mem_singleton] at h
            subst h; exact le_refl _
        · intro h; simp at h
        · intro g hg
          simp only [Option.some.injEq] at hg
          subst hg
          exact ⟨by simp, rfl, lt_of_le_of_lt ih0 hgt⟩
        · intro _ g hg p hp hlt
          simp only [Option.some.injEq] at hg
          subst hg
          rcases List.mem_append.mp hp with h | h
          · exact lt_of_le_of_lt (ih1 p h) hgt
          · simp only [List.mem_singleton] at h
            rw [h] at hlt
            simp at hlt
      · simp only [stepPair, if_neg hgt]
        push_neg at hgt
        refine ⟨ih0, ?_, ?_, ?_, ?_⟩
        · intro p hp
          rcases List.mem_append.mp hp with h | h
          · exact ih1 p h
          · simp only [List.mem_singleton] at h
            subst h; exact hgt
        · exact ih2
        · intro g hg
          obtain ⟨hmem, hsc, hpos⟩ := ih3 g hg
          exact ⟨List.mem_append_left _ hmem, hsc, hpos⟩
        · intro hpw g hg p hp hlt
          obtain ⟨pw1, _, hcross⟩ := List.pairwise_append.mp hpw
          rcases List.mem_append.mp hp with h | h
          · exact ih4 pw1 g hg p h hlt
          · simp only [List.mem_singleton] at h
            obtain ⟨hmem, _, _⟩ := ih3 g hg
            have h2 := hcross _ hmem a (List.mem_singleton_self a)
            rw [h] at hlt
            omega

/-! ## Nonnegativity of the score components -/

lemma npVar_nonneg (xs : List ℚ) : 0 ≤ npVar xs := by
  unfold npVar
  apply div_nonneg
  · apply List.sum_nonneg
    intro x hx
    simp only [List.mem_map] at hx
    obtain ⟨y, _, rfl⟩ := hx
    positivity
  · positivity

lemma edgeDensityOf_nonneg (edges : GrayImage) : 0 ≤ edgeDensityOf edges := by
  unfold edgeDensityOf
  positivity

lemma complexityScore_nonneg (cv : CV) (f : Frame) : 0 ≤ complexityScore cv f := by
  have h1 := npVar_nonneg (cv.laplacian (cv.cvtGray f)).flatten
  have h2 := npVar_nonneg (((cv.cvtGray f).map (List.map fun x : Nat => (x : ℚ))).flatten)
  have h3 := edgeDensityOf_nonneg (cv.canny (cv.cvtGray f) 50 150)
  have h4 := npVar_nonneg ((cv.cvtHSV f).flatten.map fun p => (p.2.1 : ℚ))
  simp only [complexityScore]
  linarith

/-- The 1×1 uniform gray frames score exactly zero: every statistic is the
variance of a constant (or the edge density of an empty edge map). -/
lemma score_grayFrame : complexityScore cvW grayFrame = 0 := by
  norm_num [complexityScore, cvW, grayFrame, npVar, edgeDensityOf, grayOfBGR,
    hsvOfBGR, satOfBGR]

lemma score_grayFrame2 : complexityScore cvW grayFrame2 = 0 := by
  norm_num [complexityScore, cvW, grayFrame2, npVar, edgeDensityOf, grayOfBGR,
    hsvOfBGR, satOfBGR]

/-- The black/white frame has positive grayscale variance, hence a
strictly positive score. -/
lemma score_contrastFrame : 0 < complexityScore cvW contrastFrame := by
  norm_num [complexityScore, cvW, contrastFrame, npVar, edgeDensityOf, grayOfBGR,
    hsvOfBGR, satOfBGR]

/-! ## Bridging the full run to the fold over the sampled pairs -/

lemma runFold_def (score : Frame → ℚ) (ps : List (Nat × Frame)) :
    ps.foldl (stepPair score) ⟨0, none, 0⟩ = runFold score ps := rfl

/-- An open source with no retained best frame: the run raises the
no-frame error after releasing the capture, writing nothing. -/
lemma extract_open_none (cv : CV) (src : VideoSource) (rate : Nat)
    (hp : src.pathExists = true) (ho : src.opens = true)
    (hb : (runFold (complexityScore cv) (sampledFrom rate 0 src.frames)).best = none) :
    extract_most_complex_frame cv src rate = ⟨.error .noFrame, none, true⟩ := by
  unfold extract_most_complex_frame
  simp only [hp, ho, Bool.not_true, Bool.false_eq_true, if_false]
  rw [scan_eq_foldl, runFold_def, hb]

/-- An open source with a retained best frame: the run returns it, writes
it out, and has released the capture. -/
lemma extract_open_some (cv : CV) (src : VideoSource) (rate : Nat)
    (hp : src.pathExists = true) (ho : src.opens = true) (g : Frame)
    (hb : (runFold (complexityScore cv) (sampledFrom rate 0 src.frames)).best = some g) :
    extract_most_complex_frame cv src rate =
      ⟨.ok (g, (runFold (complexityScore cv) (sampledFrom rate 0 src.frames)).bestIdx),
        some g, true⟩ := by
  unfold extract_most_complex_frame
  simp only [hp, ho, Bool.not_true, Bool.false_eq_true, if_false]
  rw [scan_eq_foldl, runFold_def, hb]

/-! ## The Python modulo never divides by zero for a positive stride -/

lemma scanStepE_ok (score : Frame → ℚ) (rate : Nat) (h : rate ≠ 0)
    (idx : Nat) (f : Frame) (st : SelState) :
    scanStepE score rate idx f st = .ok (scanStep score rate idx f st) := by
  simp only [scanStepE, scanStep, pymod, if_neg h, Except.instMonad, Except.bind,
    Except.pure]
  by_cases h0 : idx % rate = 0
  · simp only [if_pos h0]
    by_cases hgt : score f > st.maxScore
    · simp [hgt]
    · simp [hgt]
  · simp [h0]

lemma scanFramesE_ok (score : Frame → ℚ) (rate : Nat) (h : rate ≠ 0) :
    ∀ (fs : List Frame) (idx : Nat) (st : SelState),
      scanFramesE score rate fs idx st = .ok (scanFrames score rate fs idx st) := by
  intro fs
  induction fs with
  | nil => intro idx st; rfl
  | cons f fs ih =>
      intro idx st
      rw [scanFramesE, scanFrames, scanStepE_ok score rate h]
      simp only [Except.instMonad, Except.bind]
      exact ih (idx + 1) _

/-! ## The retry loop reads only the attempts it runs -/

lemma retryAux_congr (f g : Nat → Attempt) (m : Nat) :
    ∀ (remaining attempt : Nat),
      (∀ i, attempt ≤ i → i < attempt + remaining → f i = g i) →
      retryAux f m attempt remaining = retryAux g m attempt remaining := by
  intro remaining
  induction remaining with
  | zero => intro attempt _; rfl
  | succ n ih =>
      intro attempt h
      rw [retryAux, retryAux, h attempt (le_refl _) (by omega)]
      cases hga : g attempt with
      | ok r =>
          by_cases hs : r.success = true ∨ attempt = m - 1
          · simp only [if_pos hs]
          · simp only [if_neg hs]
            exact ih (attempt + 1) (fun i h1 h2 => h i (by omega) (by omega))
      | exn e =>
          by_cases hs : attempt = m - 1
          · simp only [if_pos hs]
          · simp only [if_neg hs]
            exact ih (attempt + 1) (fun i h1 h2 => h i (by omega) (by omega))

/-! ## Claims -/

/-- C1 (corrected): for an opened stream, `NoFrameError` is raised iff
every sampled frame has complexity score at most 0 — equivalently, since
scores are nonnegative, exactly when all sampled scores are zero; a frame
is returned iff some sampled frame scores strictly above the initial
running maximum 0.  The claim as stated (a stream whose sampled frames
all score exactly zero returns frame 0) is false on the code: see the
counterexample. -/
theorem noFrame_iff_no_positive_score (cv : CV) (src : VideoSource) (rate : Nat)
    (hp : src.pathExists = true) (ho : src.opens = true) :
    ((extract_most_complex_frame cv src rate).result = .error .noFrame ↔
      ∀ p ∈ sampledFrom rate 0 src.frames, complexityScore cv p.2 ≤ 0)
    ∧ ((∃ p ∈ sampledFrom rate 0 src.frames, 0 < complexityScore cv p.2) ↔
      ∃ g i, (extract_most_complex_frame cv src rate).result = .ok (g, i))
    ∧ (∀ f, 0 ≤ complexityScore cv f) := by
  obtain ⟨inv0, inv1, inv2, inv3, inv4⟩ :=
    runFold_inv (complexityScore cv) (sampledFrom rate 0 src.frames)
  cases hb : (runFold (complexityScore cv) (sampledFrom rate 0 src.frames)).best with
  | none =>
      have hext := extract_open_none cv src rate hp ho hb
      have hz := inv2 hb
      refine ⟨⟨?_, ?_⟩, ⟨?_, ?_⟩, complexityScore_nonneg cv⟩
      · intro _ p hp2
        have h1 := inv1 p hp2
        rw [hz] at h1
        exact h1
      · intro _
        rw [hext]
      · rintro ⟨p, hmem, hpos⟩
        have h1 := inv1 p hmem
        rw [hz] at h1
        simp only at h1
        linarith
      · rintro ⟨g, i, hok⟩
        rw [hext] at hok
        simp at hok
  | some g =>
      have hext := extract_open_some cv src rate hp ho g hb
      obtain ⟨hmem, hsc, hgp⟩ := inv3 g hb
      refine ⟨⟨?_, ?_⟩, ⟨?_, ?_⟩, complexityScore_nonneg cv⟩
      · intro h
        rw [hext] at h
        simp at h
      · intro hall
        exfalso
        have h2 := hall _ hmem
        dsimp only at h2
        linarith
      · intro _
        exact ⟨g, _, by rw [hext]⟩
      · intro _
        refine ⟨_, hmem, ?_⟩
        dsimp only
        exact hgp

/-- C1 witness: the theorem applied to an open one-frame source. -/
theorem noFrame_iff_no_positive_score_witness :
    (⟨true, true, [grayFrame]⟩ : VideoSource).pathExists = true
    ∧ 0 ≤ complexityScore cvW grayFrame :=
  ⟨rfl, (noFrame_iff_no_positive_score cvW ⟨true, true, [grayFrame]⟩ 30 rfl
    rfl).2.2 grayFrame⟩

/-- C1 counterexample: a one-frame stream of a uniform gray frame has one
sampled, scored frame (score exactly zero), yet the call raises the
no-frame error instead of returning frame 0: the strict comparison with
the initial running maximum 0 never retains the frame. -/
theorem uniform_gray_stream_raises :
    (sampledFrom 30 0 [grayFrame]).length = 1
    ∧ (∀ p ∈ sampledFrom 30 0 [grayFrame], complexityScore cvW p.2 = 0)
    ∧ (extract_most_complex_frame cvW ⟨true, true, [grayFrame]⟩ 30).result
        = .error .noFrame := by
  refine ⟨rfl, ?_, ?_⟩
  · intro p hmem
    have hs : sampledFrom 30 0 [grayFrame] = [(0, grayFrame)] := rfl
    rw [hs, List.mem_singleton] at hmem
    rw [hmem]
    exact score_grayFrame
  · simp [extract_most_complex_frame, scanFrames, scanStep, score_grayFrame]

/-- C2 (corrected): whenever some sampled frame scores strictly above 0,
the call returns a sampled frame of maximal score, and on bit-identical
tied scores the earliest-indexed such frame (the running maximum is
updated only on strict greater-than).  The unqualified claim — a result
for every stream with at least one sampled frame — fails when all sampled
scores are 0: see the counterexample. -/
theorem selects_earliest_strict_max (cv : CV) (src : VideoSource) (rate : Nat)
    (hp : src.pathExists = true) (ho : src.opens = true)
    (hpos : ∃ p ∈ sampledFrom rate 0 src.frames, 0 < complexityScore cv p.2) :
    ∃ g i, (extract_most_complex_frame cv src rate).result = .ok (g, i)
      ∧ (i, g) ∈ sampledFrom rate 0 src.frames
      ∧ (∀ p ∈ sampledFrom rate 0 src.frames,
          complexityScore cv p.2 ≤ complexityScore cv g)
      ∧ (∀ p ∈ sampledFrom rate 0 src.frames,
          complexityScore cv p.2 = complexityScore cv g → i ≤ p.1) := by
  obtain ⟨inv0, inv1, inv2, inv3, inv4⟩ :=
    runFold_inv (complexityScore cv) (sampledFrom rate 0 src.frames)
  cases hb : (runFold (complexityScore cv) (sampledFrom rate 0 src.frames)).best with
  | none =>
      exfalso
      obtain ⟨p, hmem, hposp⟩ := hpos
      have h1 := inv1 p hmem
      rw [inv2 hb] at h1
      simp only at h1
      linarith
  | some g =>
      have hext := extract_open_some cv src rate hp ho g hb
      obtain ⟨hmem, hsc, hgp⟩ := inv3 g hb
      refine ⟨g, (runFold (complexityScore cv) (sampledFrom rate 0 src.frames)).bestIdx,
        by rw [hext], hmem, ?_, ?_⟩
      · intro p hp2
        have h1 := inv1 p hp2
        rw [hsc] at h1
        exact h1
      · intro p hp2 heq
        by_contra hlt
        push_neg at hlt
        have h2 := inv4 (sampledFrom_pairwise rate src.frames 0) g hb p hp2 hlt
        rw [heq] at h2
        exact lt_irrefl _ h2

/-- C2 witness: on a one-frame stream whose frame scores positively, the
selector returns a maximal, earliest frame. -/
theorem selects_earliest_strict_max_witness :
    ∃ g i, (extract_most_complex_frame cvW ⟨true, true, [contrastFrame]⟩ 30).result
        = .ok (g, i)
      ∧ (i, g) ∈ sampledFrom 30 0 [contrastFrame]
      ∧ (∀ p ∈ sampledFrom 30 0 [contrastFrame],
          complexityScore cvW p.2 ≤ complexityScore cvW g)
      ∧ (∀ p ∈ sampledFrom 30 0 [contrastFrame],
          complexityScore cvW p.2 = complexityScore cvW g → i ≤ p.1) :=
  selects_earliest_strict_max cvW ⟨true, true, [contrastFrame]⟩ 30 rfl rfl
    ⟨(0, contrastFrame), by decide, by dsimp only; exact score_contrastFrame⟩

/-- C2 counterexample: a stream with two sampled frames whose scores are
bit-identical (both exactly 0): no frame is returned at all — the call
raises — so in particular the earliest-indexed tied frame is not
returned. -/
theorem zero_score_tie_returns_nothing :
    (sampledFrom 1 0 [grayFrame, grayFrame2]).length = 2
    ∧ complexityScore cvW grayFrame = 0
    ∧ complexityScore cvW grayFrame2 = 0
    ∧ (extract_most_complex_frame cvW ⟨true, true, [grayFrame, grayFrame2]⟩ 1).result
        = .error .noFrame := by
  refine ⟨rfl, score_grayFrame, score_grayFrame2, ?_⟩
  simp [extract_most_complex_frame, scanFrames, scanStep, score_grayFrame,
    score_grayFrame2]

/-- C3 (confirmed): only frames at indices that are exact multiples of the
stride are sampled and can become the result: the outcome is a function of
the sampled subset alone; the sampled subset is exactly the multiple-index
frames; a returned frame sits at a multiple index; stride 1 samples every
frame; a stride at least the frame count samples only frame 0. -/
theorem stride_sampling_characterization (cv : CV) (rate : Nat) (h : 1 ≤ rate)
    (fs fs2 : List Frame) :
    (sampledFrom rate 0 fs = sampledFrom rate 0 fs2 →
      extract_most_complex_frame cv ⟨true, true, fs⟩ rate
        = extract_most_complex_frame cv ⟨true, true, fs2⟩ rate)
    ∧ (∀ p : Nat × Frame,
        p ∈ sampledFrom rate 0 fs ↔ p.1 % rate = 0 ∧ fs[p.1]? = some p.2)
    ∧ (∀ g i,
        (extract_most_complex_frame cv ⟨true, true, fs⟩ rate).result = .ok (g, i) →
        i % rate = 0 ∧ fs[i]? = some g)
    ∧ sampledFrom 1 0 fs = fs.enum
    ∧ (∀ f rest, fs = f :: rest → fs.length ≤ rate →
        sampledFrom rate 0 fs = [(0, f)]) := by
  refine ⟨?_, ?_, ?_, ?_, ?_⟩
  · intro hsamp
    cases hb : (runFold (complexityScore cv) (sampledFrom rate 0 fs)).best with
    | none =>
        rw [extract_open_none cv ⟨true, true, fs⟩ rate rfl rfl hb,
          extract_open_none cv ⟨true, true, fs2⟩ rate rfl rfl (by rw [← hsamp]; exact hb)]
    | some g =>
        rw [extract_open_some cv ⟨true, true, fs⟩ rate rfl rfl g hb,
          extract_open_some cv ⟨true, true, fs2⟩ rate rfl rfl g (by rw [← hsamp]; exact hb),
          hsamp]
  · intro p
    rw [mem_sampledFrom]
    simp
  · intro g i hok
    obtain ⟨inv0, inv1, inv2, inv3, inv4⟩ :=
      runFold_inv (complexityScore cv) (sampledFrom rate 0 fs)
    cases hb : (runFold (complexityScore cv) (sampledFrom rate 0 fs)).best with
    | none =>
        rw [extract_open_none cv ⟨true, true, fs⟩ rate rfl rfl hb] at hok
        simp at hok
    | some g2 =>
        rw [extract_open_some cv ⟨true, true, fs⟩ rate rfl rfl g2 hb] at hok
        simp only [Except.ok.injEq, Prod.mk.injEq] at hok
        obtain ⟨hmem, _, _⟩ := inv3 g2 hb
        rw [mem_sampledFrom] at hmem
        rw [← hok.1, ← hok.2]
        simpa using ⟨hmem.1, hmem.2.2⟩
  · rw [sampledFrom_one]
    rfl
  · intro f rest hfs hlen
    subst hfs
    rw [sampledFrom, if_pos (Nat.zero_mod rate)]
    have hnil : sampledFrom rate 1 rest = [] := by
      refine sampledFrom_eq_nil rate rest 1 ?_
      intro i h1 h2
      have hir : i < rate := by
        simp only [List.length_cons] at hlen
        omega
      rw [Nat.mod_eq_of_lt hir]
      omega
    rw [hnil]

/-- C3 witness: the theorem applied at stride 30 to a one-frame stream. -/
theorem stride_sampling_characterization_witness :
    (1 : Nat) ≤ 30 ∧ sampledFrom 1 0 [grayFrame] = [grayFrame].enum :=
  ⟨by decide,
    (stride_sampling_characterization cvW 30 (by decide) [grayFrame] [grayFrame]).2.2.2.1⟩

/-- C4 (confirmed): the complexity score of a frame is exactly the fixed
weighted sum 0.35·sharpness variance + 0.25·pixel intensity variance
+ 5000·Canny(50,150) edge density + 0.15·saturation variance. -/
theorem complexity_score_is_weighted_sum (cv : CV) (f : Frame) :
    complexityScore cv f =
      0.35 * sharpnessVariance cv f + 0.25 * pixelIntensityVariance cv f
        + 5000 * cannyEdgeDensity cv f + 0.15 * saturationVariance cv f := by
  simp only [complexityScore, sharpnessVariance, pixelIntensityVariance,
    cannyEdgeDensity, saturationVariance]
  ring

/-- C5 (confirmed): the call fails in exactly the open-error and no-frame
ways: an empty opened stream (or one with no sampled frame) raises the
no-frame error, an unopenable source raises an open error, and every
raised error is an open error on an unopenable source or the no-frame
error on an opened one. -/
theorem failure_modes (cv : CV) (src : VideoSource) (rate : Nat) :
    (src.pathExists = true → src.opens = true → src.frames = [] →
      (extract_most_complex_frame cv src rate).result = .error .noFrame)
    ∧ ((src.pathExists = false ∨ src.opens = false) →
      ∃ e, (extract_most_complex_frame cv src rate).result = .error e
        ∧ e.isOpenError = true)
    ∧ (∀ e, (extract_most_complex_frame cv src rate).result = .error e →
        (e.isOpenError = true ∧ (src.pathExists = false ∨ src.opens = false))
        ∨ (e = .noFrame ∧ src.pathExists = true ∧ src.opens = true))
    ∧ (src.pathExists = true → src.opens = true →
        sampledFrom rate 0 src.frames = [] →
        (extract_most_complex_frame cv src rate).result = .error .noFrame) := by
  cases hp : src.pathExists with
  | false =>
      have hres : extract_most_complex_frame cv src rate
          = ⟨.error .fileNotFound, none, false⟩ := by
        unfold extract_most_complex_frame
        rw [hp]
        rfl
      refine ⟨?_, ?_, ?_, ?_⟩
      · intro h; simp at h
      · intro _; exact ⟨.fileNotFound, by rw [hres], rfl⟩
      · intro e he
        rw [hres] at he
        simp only [Except.error.injEq] at he
        subst he
        exact Or.inl ⟨rfl, Or.inl rfl⟩
      · intro h; simp at h
  | true =>
      cases ho : src.opens with
      | false =>
          have hres : extract_most_complex_frame cv src rate
              = ⟨.error .couldNotOpen, none, false⟩ := by
            unfold extract_most_complex_frame
            rw [hp, ho]
            rfl
          refine ⟨?_, ?_, ?_, ?_⟩
          · intro _ h; simp at h
          · intro _; exact ⟨.couldNotOpen, by rw [hres], rfl⟩
          · intro e he
            rw [hres] at he
            simp only [Except.error.injEq] at he
            subst he
            exact Or.inl ⟨rfl, Or.inr rfl⟩
          · intro _ h; simp at h
      | true =>
          refine ⟨?_, ?_, ?_, ?_⟩
          · intro _ _ hf
            refine extract_open_none cv src rate hp ho ?_ ▸ rfl
            rw [hf]
            rfl
          · rintro (h | h) <;> simp at h
          · intro e he
            cases hb : (runFold (complexityScore cv) (sampledFrom rate 0 src.frames)).best with
            | none =>
                rw [extract_open_none cv src rate hp ho hb] at he
                simp only [Except.error.injEq] at he
                exact Or.inr ⟨he.symm, rfl, rfl⟩
            | some g =>
                rw [extract_open_some cv src rate hp ho g hb] at he
                simp at he
          · intro _ _ hsamp
            refine extract_open_none cv src rate hp ho ?_ ▸ rfl
            rw [hsamp]
            rfl

/-- C5 witness: an unopenable source raises an open error; an open empty
stream raises the no-frame error. -/
theorem failure_modes_witness :
    (∃ e, (extract_most_complex_frame cvW ⟨false, false, []⟩ 30).result = .error e
      ∧ e.isOpenError = true)
    ∧ (extract_most_complex_frame cvW ⟨true, true, []⟩ 30).result = .error .noFrame :=
  ⟨(failure_modes cvW ⟨false, false, []⟩ 30).2.1 (Or.inl rfl),
    (failure_modes cvW ⟨true, true, []⟩ 30).1 rfl rfl rfl⟩

/-- C6 (confirmed): the output image is written only on the success path:
every failing call writes nothing, and a successful call writes exactly
the retained best frame. -/
theorem writes_only_on_success (cv : CV) (src : VideoSource) (rate : Nat) :
    (∀ e, (extract_most_complex_frame cv src rate).result = .error e →
      (extract_most_complex_frame cv src rate).written = none)
    ∧ (∀ g i, (extract_most_complex_frame cv src rate).result = .ok (g, i) →
      (extract_most_complex_frame cv src rate).written = some g) := by
  cases hp : src.pathExists with
  | false =>
      have hres : extract_most_complex_frame cv src rate
          = ⟨.error .fileNotFound, none, false⟩ := by
        unfold extract_most_complex_frame
        rw [hp]
        rfl
      rw [hres]
      exact ⟨fun e _ => rfl, fun g i hok => by simp at hok⟩
  | true =>
      cases ho : src.opens with
      | false =>
          have hres : extract_most_complex_frame cv src rate
              = ⟨.error .couldNotOpen, none, false⟩ := by
            unfold extract_most_complex_frame
            rw [hp, ho]
            rfl
          rw [hres]
          exact ⟨fun e _ => rfl, fun g i hok => by simp at hok⟩
      | true =>
          cases hb : (runFold (complexityScore cv) (sampledFrom rate 0 src.frames)).best with
          | none =>
              rw [extract_open_none cv src rate hp ho hb]
              exact ⟨fun e _ => rfl, fun g i hok => by simp at hok⟩
          | some g2 =>
              rw [extract_open_some cv src rate hp ho g2 hb]
              refine ⟨fun e he => by simp at he, fun g i hok => ?_⟩
              simp only [Except.ok.injEq, Prod.mk.injEq] at hok
              rw [hok.1]

/-- C6 witness: a failing call (missing path) writes nothing. -/
theorem writes_only_on_success_witness :
    (extract_most_complex_frame cvW ⟨false, true, []⟩ 30).result
      = .error .fileNotFound
    ∧ (extract_most_complex_frame cvW ⟨false, true, []⟩ 30).written = none :=
  ⟨rfl, (writes_only_on_success cvW ⟨false, true, []⟩ 30).1 .fileNotFound rfl⟩

/-- C7 (confirmed): every execution that opens the stream releases the
capture before returning — both on the normal path and on the no-frame
raise, which in the source happens only after `cap.release()`. -/
theorem capture_released_when_opened (cv : CV) (src : VideoSource) (rate : Nat)
    (hp : src.pathExists = true) (ho : src.opens = true) :
    (extract_most_complex_frame cv src rate).released = true := by
  cases hb : (runFold (complexityScore cv) (sampledFrom rate 0 src.frames)).best with
  | none => rw [extract_open_none cv src rate hp ho hb]
  | some g => rw [extract_open_some cv src rate hp ho g hb]

/-- C7 witness: released on a raising run (open stream, no retained
frame). -/
theorem capture_released_when_opened_witness :
    (extract_most_complex_frame cvW ⟨true, true, [grayFrame]⟩ 30).result
      = .error .noFrame
    ∧ (extract_most_complex_frame cvW ⟨true, true, [grayFrame]⟩ 30).released = true := by
  refine ⟨?_, capture_released_when_opened cvW ⟨true, true, [grayFrame]⟩ 30 rfl rfl⟩
  simp [extract_most_complex_frame, scanFrames, scanStep, score_grayFrame]

/-- C8 (confirmed): for a stride of at least 1, Python's `%` in the
sampling test never hits its zero-divisor branch, and the run with the
partial modulo made explicit returns exactly the total run's outcome — no
arithmetic error is raised. -/
theorem stride_mod_no_zero_division (cv : CV) (src : VideoSource) (rate : Nat)
    (h : 1 ≤ rate) :
    (∀ idx, pymod idx rate = .ok (idx % rate))
    ∧ extract_most_complex_frameE cv src rate
        = .ok (extract_most_complex_frame cv src rate) := by
  have hne : rate ≠ 0 := by omega
  constructor
  · intro idx
    simp [pymod, hne]
  · unfold extract_most_complex_frameE extract_most_complex_frame
    cases hp : src.pathExists with
    | false => rfl
    | true =>
        cases ho : src.opens with
        | false => rfl
        | true =>
            simp only [Bool.not_true, Bool.false_eq_true, if_false]
            rw [scanFramesE_ok (complexityScore cv) rate hne]
            simp only [Except.instMonad, Except.bind]
            cases hb : (scanFrames (complexityScore cv) rate src.frames 0 ⟨0, none, 0⟩).best with
            | none => rfl
            | some g => rfl

/-- C8 witness: the theorem applied at stride 30 to a one-frame source. -/
theorem stride_mod_no_zero_division_witness :
    (1 : Nat) ≤ 30
    ∧ extract_most_complex_frameE cvW ⟨true, true, [grayFrame]⟩ 30
        = .ok (extract_most_complex_frame cvW ⟨true, true, [grayFrame]⟩ 30) :=
  ⟨by decide, (stride_mod_no_zero_division cvW ⟨true, true, [grayFrame]⟩ 30 (by decide)).2⟩

/-- C9 (confirmed): the selection is deterministic — it is a pure function
of the decoded frame sequence and the stride: two runs on equal inputs
produce the identical trace and identical loop state (same maximum score,
retained frame, and index); nothing else influences the outcome. -/
theorem selection_deterministic (cv : CV) (rate : Nat) (src1 src2 : VideoSource)
    (h : src1 = src2) :
    extract_most_complex_frame cv src1 rate = extract_most_complex_frame cv src2 rate
    ∧ scanFrames (complexityScore cv) rate src1.frames 0 ⟨0, none, 0⟩
        = scanFrames (complexityScore cv) rate src2.frames 0 ⟨0, none, 0⟩ := by
  subst h
  exact ⟨rfl, rfl⟩

/-- C9 witness: the theorem applied to two copies of the same source. -/
theorem selection_deterministic_witness :
    extract_most_complex_frame cvW ⟨true, true, [grayFrame]⟩ 30
      = extract_most_complex_frame cvW ⟨true, true, [grayFrame]⟩ 30
    ∧ scanFrames (complexityScore cvW) 30 [grayFrame] 0 ⟨0, none, 0⟩
        = scanFrames (complexityScore cvW) 30 [grayFrame] 0 ⟨0, none, 0⟩ :=
  selection_deterministic cvW 30 ⟨true, true, [grayFrame]⟩ ⟨true, true, [grayFrame]⟩ rfl

/-- C10 (confirmed): `_retry_request` runs the wrapped callable at most 3
times (its outcome depends only on the first three attempts), returns the
first returned result whose success flag is true, returns the result of
the final attempt when no attempt succeeds, and converts an exception on
the final attempt into a failure dict carrying the exception text instead
of propagating it. -/
theorem retry_request_behaviour (func : Nat → Attempt) :
    (∀ func2 : Nat → Attempt, (∀ i, i < 3 → func i = func2 i) →
      _retry_request func = _retry_request func2)
    ∧ (∀ i r, i < 3 → (∀ j, j < i → (func j).succeeded = false) →
        func i = .ok r → r.success = true → _retry_request func = r)
    ∧ ((∀ j, j < 3 → (func j).succeeded = false) →
        (∀ r, func 2 = .ok r → _retry_request func = r)
        ∧ (∀ e, func 2 = .exn e → _retry_request func = ⟨false, some e, 0⟩)) := by
  refine ⟨?_, ?_, ?_⟩
  · intro func2 hag
    exact retryAux_congr func func2 3 3 0 (fun i h1 h2 => hag i (by omega))
  · intro i r hi hprev hok hs
    interval_cases i
    · simp [_retry_request, retryAux, hok, hs]
    · have h0 := hprev 0 (by omega)
      rcases hf0 : func 0 with r0 | e0
      · rw [hf0] at h0
        simp only [Attempt.succeeded] at h0
        simp [_retry_request, retryAux, hf0, h0, hok, hs]
      · simp [_retry_request, retryAux, hf0, hok, hs]
    · have h0 := hprev 0 (by omega)
      have h1 := hprev 1 (by omega)
      rcases hf0 : func 0 with r0 | e0 <;> rcases hf1 : func 1 with r1 | e1
      · rw [hf0] at h0; rw [hf1] at h1
        simp only [Attempt.succeeded] at h0 h1
        simp [_retry_request, retryAux, hf0, hf1, h0, h1, hok, hs]
      · rw [hf0] at h0
        simp only [Attempt.succeeded] at h0
        simp [_retry_request, retryAux, hf0, hf1, h0, hok, hs]
      · rw [hf1] at h1
        simp only [Attempt.succeeded] at h1
        simp [_retry_request, retryAux, hf0, hf1, h1, hok, hs]
      · simp [_retry_request, retryAux, hf0, hf1, hok, hs]
  · intro hall
    have h0 := hall 0 (by omega)
    have h1 := hall 1 (by omega)
    have h2 := hall 2 (by omega)
    constructor
    · intro r hok
      rw [hok] at h2
      simp only [Attempt.succeeded] at h2
      rcases hf0 : func 0 with r0 | e0 <;> rcases hf1 : func 1 with r1 | e1
      · rw [hf0] at h0; rw [hf1] at h1
        simp only [Attempt.succeeded] at h0 h1
        simp [_retry_request, retryAux, hf0, hf1, h0, h1, hok, h2]
      · rw [hf0] at h0
        simp only [Attempt.succeeded] at h0
        simp [_retry_request, retryAux, hf0, hf1, h0, hok, h2]
      · rw [hf1] at h1
        simp only [Attempt.succeeded] at h1
        simp [_retry_request, retryAux, hf0, hf1, h1, hok, h2]
      · simp [_retry_request, retryAux, hf0, hf1, hok, h2]
    · intro e hexn
      rcases hf0 : func 0 with r0 | e0 <;> rcases hf1 : func 1 with r1 | e1
      · rw [hf0] at h0; rw [hf1] at h1
        simp only [Attempt.succeeded] at h0 h1
        simp [_retry_request, retryAux, hf0, hf1, h0, h1, hexn]
      · rw [hf0] at h0
        simp only [Attempt.succeeded] at h0
        simp [_retry_request, retryAux, hf0, hf1, h0, hexn]
      · rw [hf1] at h1
        simp only [Attempt.succeeded] at h1
        simp [_retry_request, retryAux, hf0, hf1, h1, hexn]
      · simp [_retry_request, retryAux, hf0, hf1, hexn]

/-- C10 witness: a callable raising on every attempt yields the failure
dict carrying the final exception text. -/
theorem retry_request_behaviour_witness :
    (∀ j, j < 3 → (funcExn j).succeeded = false)
    ∧ _retry_request funcExn = ⟨false, some "boom", 0⟩ :=
  ⟨by decide, ((retry_request_behaviour funcExn).2.2 (by decide)).2 "boom" rfl⟩

end TruthScan
